import Mathlib

namespace DreamerSpec

/-!
Verification development for the DreamerV3 training core
(`src/examples/dreamerv3/dreamer.py` and the components it orchestrates).

The `Dreamer` class and `main` are embedded directly from `dreamer.py`.
Components whose source is not part of this snapshot (`models.py`, the
tinygrad checkpoint serializer) are modelled from the specification; each
such definition carries a doc comment starting with `Modelled from the
spec:`.
-/

/-- Configuration fields of the Dreamer agent read by the embedded code.
Python integers are modelled as `Int`; Python `//` is `Int.fdiv` and
Python `%` is `Int.fmod` (both floor-based, like Python). -/
structure DreamerConfig where
  batch_size : Int
  batch_length : Int
  train_ratio : Int
  pretrain : Int
  log_every : Int
  expl_until : Int
  action_repeat : Int
deriving DecidableEq

/-- The derived train-step count of `Dreamer.__init__` lines 18-19:
`batch_steps = batch_size * batch_length; batch_steps // train_ratio`. -/
def numTrainSteps (c : DreamerConfig) : Int :=
  (c.batch_size * c.batch_length).fdiv c.train_ratio

/-- A value stored in the `Dreamer._metrics` dict: either a Python list of
numbers (the per-train-call accumulators built by `_train`) or a bare
number (the `update_count` entry, which `__call__` line 40 overwrites with
the current update count on every loop iteration). -/
inductive MetricVal where
  | listV : List ℚ → MetricVal
  | scalarV : ℚ → MetricVal
deriving DecidableEq

/-- The expression `float(np.mean(values))` of `__call__` line 43: a bare
number is its own mean, a list is summed and divided by its length.
In numpy the mean of an empty list is NaN; no settled statement below
evaluates that case, and the model returns 0 there. -/
def pymean : MetricVal → ℚ
  | MetricVal.scalarV q => q
  | MetricVal.listV [] => 0
  | MetricVal.listV l => l.sum / (l.length : ℚ)

/-- Assignment `m[k] = v` on a Python dict modelled as an insertion-ordered
association list: replace the (unique) entry in place when the key is
present, else append at the end. -/
def setA : List (String × MetricVal) → String → MetricVal → List (String × MetricVal)
  | [], k, v => [(k, v)]
  | p :: rest, k, v => if p.1 == k then (k, v) :: rest else p :: setA rest k v

/-- The list accumulated at key `k` (empty when absent or a bare number). -/
def accList (m : List (String × MetricVal)) (k : String) : List ℚ :=
  match List.lookup k m with
  | some (MetricVal.listV l) => l
  | _ => []

/-- Lines 66-69 of `dreamer.py`: append one scalar to a metric accumulator,
creating a singleton list when the key is absent.  In Python a bare-number
entry would raise here (`int` has no `append`); that case is unreachable
whenever the world-model/actor-critic metric names avoid `"update_count"`,
the only key that ever holds a bare number, and the theorems below assume
exactly that. -/
def appendMetric (m : List (String × MetricVal)) (k : String) (v : ℚ) :
    List (String × MetricVal) :=
  setA m k (MetricVal.listV (accList m k ++ [v]))

/-- Observable events of the training loop: pulling batch number `k` from
the dataset iterator, `world_model.train` on batch `k`, and
`actor_critic.train` seeded with posterior-sequence id `p`. -/
inductive Ev where
  | pull : ℕ → Ev
  | wmTrain : ℕ → Ev
  | acTrain : ℕ → Ev
deriving DecidableEq

/-- External collaborators of the training loop, abstracted: `wmPost k` is
the id of the posterior state sequence that `world_model.train` returns for
batch `k`, and `trainMets k` the combined scalar-metrics dict produced by
the `k`-th `_train` call (world-model metrics followed by actor-critic
metrics, in order). -/
structure Oracles where
  wmPost : ℕ → ℕ
  trainMets : ℕ → List (String × ℚ)

/-- The mutable state of a `Dreamer` instance (plus the dataset-iterator
position and the agent parameter mapping, so that frame conditions about
the collaborators can be stated). -/
structure DreamerState where
  cfg : DreamerConfig
  numTrainStepsF : Int
  pretrained : Bool
  step : Int
  updateCount : Int
  metrics : List (String × MetricVal)
  loggerStep : Int
  datasetPos : ℕ
  params : List (String × List ℚ)
deriving DecidableEq

/-- The constructor `Dreamer.__init__` (lines 14-32).  It raises
`ZeroDivisionError` when `train_ratio = 0` (the floor division on line 19),
`ValueError` when the derived train-step count is exactly zero
(lines 20-21), and `ZeroDivisionError` again when `action_repeat = 0`
(the division on line 28).  Note the `== 0` test does not catch a negative
derived count. -/
def dreamerInit (c : DreamerConfig) (loggerStep : Int)
    (initParams : List (String × List ℚ)) : Except String DreamerState :=
  if c.train_ratio = 0 then Except.error "ZeroDivisionError"
  else if numTrainSteps c = 0 then Except.error "ValueError: train ratio too large"
  else if c.action_repeat = 0 then Except.error "ZeroDivisionError"
  else Except.ok
    { cfg := c
      numTrainStepsF := numTrainSteps c
      pretrained := false
      step := loggerStep.fdiv c.action_repeat
      updateCount := 0
      metrics := []
      loggerStep := loggerStep
      datasetPos := 0
      params := initParams }

/-- Whether construction succeeds. -/
def initOk (c : DreamerConfig) (l : Int) (p : List (String × List ℚ)) : Bool :=
  match dreamerInit c l p with
  | Except.ok _ => true
  | Except.error _ => false

/-- One iteration of the training loop body (`__call__` lines 37-40 plus
`_train` lines 54-69): pull the next batch, run `world_model.train` on it,
run `actor_critic.train` seeded with the posterior sequence returned by
that same `world_model.train` call, append every resulting metric to its
accumulator, bump `_update_count` and overwrite the `update_count` entry. -/
def trainStep1 (o : Oracles) (s : DreamerState) : DreamerState × List Ev :=
  let k := s.datasetPos
  let m1 := (o.trainMets k).foldl (fun m p => appendMetric m p.1 p.2) s.metrics
  let uc := s.updateCount + 1
  let m2 := setA m1 "update_count" (MetricVal.scalarV (uc : ℚ))
  ({ s with datasetPos := k + 1, metrics := m2, updateCount := uc },
   [Ev.pull k, Ev.wmTrain k, Ev.acTrain (o.wmPost k)])

/-- The loop `for _ in range(num_steps)` of `__call__` lines 37-40. -/
def runTrainSteps (o : Oracles) : ℕ → DreamerState → DreamerState × List Ev
  | 0, s => (s, [])
  | n + 1, s =>
    let r1 := trainStep1 o s
    let r2 := runTrainSteps o n r1.1
    (r2.1, r1.2 ++ r2.2)

/-- Line 36: `num_steps = pretrain if not pretrained else _num_train_steps`
(Python `range` over a negative count iterates zero times, hence `toNat`). -/
def numStepsOf (s : DreamerState) : ℕ :=
  (if s.pretrained then s.numTrainStepsF else s.cfg.pretrain).toNat

/-- Line 41: `not self.pretrained or self._step % self._log_every == 0`. -/
def writeCond (s : DreamerState) : Bool :=
  !s.pretrained || (Int.fmod s.step s.cfg.log_every == 0)

/-- Lines 42-43: the scalars handed to the logger on a write (each metric
averaged with `np.mean`). -/
def writeScalars (m : List (String × MetricVal)) : List (String × ℚ) :=
  m.map (fun p => (p.1, pymean p.2))

/-- Line 44: every accumulator is reset to the empty list after a write. -/
def resetMetrics (m : List (String × MetricVal)) : List (String × MetricVal) :=
  m.map (fun p => (p.1, MetricVal.listV []))

/-- The observable outcome of one `Dreamer.__call__`. -/
structure CallResult where
  state : DreamerState
  events : List Ev
  written : Option (List (String × ℚ))
  explore : Bool
deriving DecidableEq

/-- `Dreamer.__call__` (lines 34-52).  With `training=True` it runs the
training loop, possibly writes averaged metrics, marks the agent
pretrained, advances `_step` by `len(done)` and syncs the logger step;
with `training=False` it only computes the policy, whose explore flag is
`_step < expl_until` (in the training branch `_step` has already been
advanced when the flag is read, matching lines 47-50). -/
def dreamerCall (o : Oracles) (training : Bool) (lenDone : ℕ)
    (s : DreamerState) : CallResult :=
  if training then
    let r := runTrainSteps o (numStepsOf s) s
    let s1 := r.1
    let written := if writeCond s1 then some (writeScalars s1.metrics) else none
    let m2 := if writeCond s1 then resetMetrics s1.metrics else s1.metrics
    let newStep := s1.step + (lenDone : Int)
    { state := { s1 with
        metrics := m2
        pretrained := true
        step := newStep
        loggerStep := s.cfg.action_repeat * newStep }
      events := r.2
      written := written
      explore := decide (newStep < s.cfg.expl_until) }
  else
    { state := s, events := [], written := none
      explore := decide (s.step < s.cfg.expl_until) }

/-- Lines 124-127 of `main`.  The loading step is modelled from the spec:
the checkpoint is a single mapping from parameter name to tensor value that
replaces the agent parameters; its existence also marks the agent as
already pretrained. -/
def mainStartup (ckptExists : Bool) (ckpt : List (String × List ℚ))
    (s : DreamerState) : DreamerState :=
  if ckptExists then { s with params := ckpt, pretrained := true } else s

/-- Recognizer for dataset-pull events. -/
def isPull : Ev → Bool
  | Ev.pull _ => true
  | _ => false

/-- Number of batches pulled from the dataset iterator. -/
def pullCount (evs : List Ev) : ℕ := (evs.filter isPull).length

/-- Values recorded for metric `name` by the train calls numbered
`pos, …, pos + n - 1`, in order. -/
def callVals (o : Oracles) (pos n : ℕ) (name : String) : List ℚ :=
  (List.range n).flatMap
    (fun i => ((o.trainMets (pos + i)).filter (fun p => p.1 == name)).map Prod.snd)

/-- Well-formedness of the metrics dict: every key other than
`"update_count"` holds a list accumulator. -/
def metricsWFb (m : List (String × MetricVal)) : Bool :=
  m.all (fun p =>
    p.1 == "update_count" ||
      match p.2 with
      | MetricVal.listV _ => true
      | MetricVal.scalarV _ => false)

/-!
Lambda-return estimator (section 4.4 of the spec; the implementation lives
in `models.py`, which is not part of this snapshot).
-/

/-- Modelled from the spec: the backward recursion of the returns estimator
in `ActorCritic._compute_target` (`models.py`, absent from the snapshot):
`target[t] = reward[t] + discount[t] * ((1-lam)*value[t+1] + lam*target[t+1])`
with boundary `target[H] = value[H]`.  The first argument counts the number
of recursion steps remaining (`H - t`), making the recursion structural. -/
def lambdaTargetGo (lam : ℚ) (reward discount value : ℕ → ℚ) (H : ℕ) :
    ℕ → ℕ → ℚ
  | 0, _ => value H
  | n + 1, t =>
    reward t + discount t *
      ((1 - lam) * value (t + 1) + lam * lambdaTargetGo lam reward discount value H n (t + 1))

/-- The lambda-return target at time `t` of a rollout of horizon `H`. -/
def lambdaTarget (lam : ℚ) (reward discount value : ℕ → ℚ) (H t : ℕ) : ℚ :=
  lambdaTargetGo lam reward discount value H (H - t) t

/-!
RewardEMA (spec section 4.4, advantage normalization; implementation in
`models.py`, absent from the snapshot).
-/

/-- Modelled from the spec: the percentile of a list of numbers, computed by
sorting and linearly interpolating at fractional position `q * (n - 1)`
(the convention of `torch.quantile`/`np.percentile`, which the spec's
"5th and 95th percentiles" refers to).  Empty input returns 0; no settled
statement evaluates that case. -/
def pyQuantile (q : ℚ) (xs : List ℚ) : ℚ :=
  match xs.insertionSort (· ≤ ·) with
  | [] => 0
  | y :: ys =>
    let s := y :: ys
    let n := s.length
    let pos : ℚ := q * ((n : ℚ) - 1)
    let i : ℕ := pos.floor.toNat
    let lo := s.getD i 0
    let hi := s.getD (min (i + 1) (n - 1)) 0
    lo + (pos - (i : ℚ)) * (hi - lo)

/-- Modelled from the spec: one `RewardEMA` update
(`ema_vals[i] = decay * ema_vals[i] + (1 - decay) * percentile_i(targets)`,
percentiles 5 and 95), returning `(offset, scale, new_ema_vals)` with
`offset = p5` and `scale = max 1 (p95 - p5)` read from the updated pair. -/
def rewardEMA (decay : ℚ) (targets : List ℚ) (ema : ℚ × ℚ) : ℚ × ℚ × (ℚ × ℚ) :=
  let p5 := pyQuantile (5 / 100) targets
  let p95 := pyQuantile (95 / 100) targets
  let e1 := decay * ema.1 + (1 - decay) * p5
  let e2 := decay * ema.2 + (1 - decay) * p95
  (e1, max 1 (e2 - e1), (e1, e2))

/-!
Recurrent state-space model, world-model `observe`, and imagination rollout
(spec sections 4.1-4.3; implementation in `models.py`, absent from the
snapshot).  The neural layers themselves are outside the spec's scope
("the specific neural architectures' exact layer wiring" is a declared
non-goal), so they appear as parameters constrained only by the shape
contracts the spec does state.
-/

/-- Latent-space sizes of the dynamics model. -/
structure RSSMConfig where
  num_groups : ℕ
  num_classes : ℕ
  deter_size : ℕ
deriving DecidableEq

/-- Modelled from the spec: a latent state is a pair of a stochastic
categorical sample (`num_groups × num_classes`) and a deterministic
recurrent vector (`deter_size`), per batch element. -/
structure LatentState where
  stoch : List (List ℚ)
  deter : List ℚ
deriving DecidableEq

/-- Shape check for a `num_groups × num_classes` matrix. -/
def shapeGC (cfg : RSSMConfig) (x : List (List ℚ)) : Bool :=
  (x.length == cfg.num_groups) && x.all (fun g => g.length == cfg.num_classes)

/-- Shape check for one latent state. -/
def stateWF (cfg : RSSMConfig) (s : LatentState) : Bool :=
  shapeGC cfg s.stoch && (s.deter.length == cfg.deter_size)

/-- Modelled from the spec: `initial(batch)` is the zero latent state
(deterministic vector all zero, stochastic sample zero), replicated over
the batch. -/
def initialLatent (cfg : RSSMConfig) : LatentState :=
  { stoch := List.replicate cfg.num_groups (List.replicate cfg.num_classes 0)
    deter := List.replicate cfg.deter_size 0 }

/-- Modelled from the spec: `initial(batch_size)` for a whole batch. -/
def initialBatch (cfg : RSSMConfig) (batch : ℕ) : List LatentState :=
  List.replicate batch (initialLatent cfg)

/-- Modelled from the spec: `get_feat(state)` concatenates the
deterministic vector with the flattened stochastic sample. -/
def get_feat (s : LatentState) : List ℚ :=
  s.deter ++ s.stoch.flatten

/-- The feature length `deter_size + num_groups * num_classes`. -/
def featLen (cfg : RSSMConfig) : ℕ :=
  cfg.deter_size + cfg.num_groups * cfg.num_classes

/-- The sampling-noise-carrying apparatus used by stochastic draws; the
spec requires it to be explicitly reset between imagination rollouts. -/
structure Sampler where
  seedVal : ℕ
deriving DecidableEq

/-- The networks of the dynamics model, abstracted (layer wiring is a
declared non-goal of the spec): the recurrent cell, the prior and posterior
logit heads, and the stochastic sampler for categorical draws. -/
structure RSSMNets where
  gruStep : List ℚ → List ℚ → List ℚ → List ℚ
  priorLogits : List ℚ → List (List ℚ)
  postLogits : List ℚ → List ℚ → List (List ℚ)
  sampleStoch : List (List ℚ) → Sampler → List (List ℚ) × Sampler

/-- The shape contracts the spec states for the dynamics networks: the cell
returns a `deter_size` vector and every logit head / sampled draw is
`num_groups × num_classes`. -/
def netsWF (cfg : RSSMConfig) (nets : RSSMNets) : Prop :=
  (∀ d st a, (nets.gruStep d st a).length = cfg.deter_size)
  ∧ (∀ d, shapeGC cfg (nets.priorLogits d) = true)
  ∧ (∀ d e, shapeGC cfg (nets.postLogits d e) = true)
  ∧ (∀ l smp, shapeGC cfg (nets.sampleStoch l smp).1 = true)

/-- Modelled from the spec: the prior transition (`img_step`): advance the
deterministic vector from the previous state and action, produce prior
logits and sample the stochastic part. -/
def img_step (nets : RSSMNets) (s : LatentState) (a : List ℚ) (smp : Sampler) :
    LatentState × Sampler :=
  let d := nets.gruStep s.deter s.stoch.flatten a
  let r := nets.sampleStoch (nets.priorLogits d) smp
  (⟨r.1, d⟩, r.2)

/-- Modelled from the spec: one `observe` step: reset to the zero state
where `is_first` is set, else advance the deterministic vector, then
produce the prior and then the posterior (the latter corrected by the
observation embedding).  Returns `(posterior, prior, sampler)`. -/
def obs_step (cfg : RSSMConfig) (nets : RSSMNets) (prev : LatentState)
    (a e : List ℚ) (isFirst : Bool) (smp : Sampler) :
    LatentState × LatentState × Sampler :=
  let d := if isFirst then (initialLatent cfg).deter
           else nets.gruStep prev.deter prev.stoch.flatten a
  let rp := nets.sampleStoch (nets.priorLogits d) smp
  let rq := nets.sampleStoch (nets.postLogits d e) rp.2
  (⟨rq.1, d⟩, ⟨rp.1, d⟩, rq.2)

/-- Modelled from the spec: `observe` as an explicit fold over the length-T
index range of one batch row: the input row pairs each timestep's
`(embedding, action, is_first)`; the output is the ordered sequence of
`(posterior, prior)` states. -/
def observeRow (cfg : RSSMConfig) (nets : RSSMNets) :
    List (List ℚ × List ℚ × Bool) → LatentState → Sampler →
    List (LatentState × LatentState) × Sampler
  | [], _, smp => ([], smp)
  | (e, a, f) :: rest, prev, smp =>
    let r := obs_step cfg nets prev a e f smp
    let tail := observeRow cfg nets rest r.1 r.2.2
    ((r.1, r.2.1) :: tail.1, tail.2)

/-- Modelled from the spec: batched `observe`: row `b` of the output is the
scan of row `b` of the input from the `b`-th seed state (rows are
independent in the recurrence; the sampler is threaded through). -/
def observe (cfg : RSSMConfig) (nets : RSSMNets) :
    List (List (List ℚ × List ℚ × Bool)) → List LatentState → Sampler →
    List (List (LatentState × LatentState)) × Sampler
  | [], _, smp => ([], smp)
  | _, [], smp => ([], smp)
  | row :: rows, init :: inits, smp =>
    let r := observeRow cfg nets row init smp
    let rest := observe cfg nets rows inits r.2
    (r.1 :: rest.1, rest.2)

/-- Modelled from the spec: the posterior state sequence returned by
`WorldModel.train` for a batch (shape `B × T`). -/
def wmTrainPosts (cfg : RSSMConfig) (nets : RSSMNets)
    (rows : List (List (List ℚ × List ℚ × Bool))) (inits : List LatentState)
    (smp : Sampler) : List (List LatentState) :=
  (observe cfg nets rows inits smp).1.map (fun r => r.map Prod.fst)

/-- The policy head, abstracted: maps features to an action sample,
advancing the sampler. -/
structure PolicyNets where
  num_actions : ℕ
  act : List ℚ → Sampler → List ℚ × Sampler

/-- Thread the sampler through a batch of draws. -/
def mapSampler (f : α → Sampler → β × Sampler) :
    List α → Sampler → List β × Sampler
  | [], smp => ([], smp)
  | x :: xs, smp =>
    let r := f x smp
    let rest := mapSampler f xs r.2
    (r.1 :: rest.1, rest.2)

/-- One rollout step, action part: sample one action per batch element
from the policy applied to the current features. -/
def imagineActs (pol : PolicyNets) (states : List LatentState) (smp : Sampler) :
    List (List ℚ) × Sampler :=
  mapSampler (fun f s => pol.act f s) (states.map get_feat) smp

/-- One rollout step, transition part: advance every batch element by the
prior transition under its sampled action. -/
def imagineNext (nets : RSSMNets) (states : List LatentState)
    (acts : List (List ℚ)) (smp : Sampler) : List LatentState × Sampler :=
  mapSampler (fun p s => img_step nets p.1 p.2 s) (states.zip acts) smp

/-- Modelled from the spec: the imagination rollout: for `H` steps, compute
features of the current states, sample an action per batch element from
the policy, record `(features, states, actions)`, and step the prior
transition.  Returns the three length-`H` sequences and the advanced
sampler. -/
def imagine (cfg : RSSMConfig) (nets : RSSMNets) (pol : PolicyNets) :
    ℕ → List LatentState → Sampler →
    (List (List (List ℚ)) × List (List LatentState) × List (List (List ℚ))) × Sampler
  | 0, _, smp => (([], [], []), smp)
  | h + 1, states, smp =>
    let ra := imagineActs pol states smp
    let rs := imagineNext nets states ra.1 ra.2
    let rest := imagine cfg nets pol h rs.1 rs.2
    ((states.map get_feat :: rest.1.1, states :: rest.1.2.1, ra.1 :: rest.1.2.2), rest.2)

/-- The imagination apparatus owned by the actor-critic: the sampler it
carries across rollouts.  `imagineReset` is the required cleanup step that
restores the apparatus to its pristine state. -/
structure ImagApp where
  smp : Sampler
deriving DecidableEq

/-- The pristine sampling apparatus. -/
def imagAppInit : ImagApp := ⟨⟨0⟩⟩

/-- Modelled from the spec: the explicit reset of the sampling-noise
apparatus after a rollout. -/
def imagineReset (_ : ImagApp) : ImagApp := imagAppInit

/-- One stateful rollout call through the apparatus. -/
def imagineCall (cfg : RSSMConfig) (nets : RSSMNets) (pol : PolicyNets)
    (H : ℕ) (seeds : List LatentState) (app : ImagApp) :
    (List (List (List ℚ)) × List (List LatentState) × List (List (List ℚ))) × ImagApp :=
  let r := imagine cfg nets pol H seeds app.smp
  (r.1, ⟨r.2⟩)

/-!
Checkpoint serialization (spec section 6; `safe_save`/`safe_load` live in
tinygrad, outside this snapshot).
-/

/-- Modelled from the spec: `safe_save` serializes the state dict (a
mapping from parameter name to tensor value) into a safetensors-style pair
of a header — name, offset and length per tensor — and one flat buffer. -/
def safeSave (d : List (String × List ℚ)) : List (String × ℕ × ℕ) × List ℚ :=
  match d with
  | [] => ([], [])
  | (n, t) :: rest =>
    let r := safeSave rest
    ((n, 0, t.length) :: r.1.map (fun e => (e.1, t.length + e.2.1, e.2.2)), t ++ r.2)

/-- Modelled from the spec: `safe_load` reads every tensor back out of the
flat buffer by its recorded offset and length. -/
def safeLoad (c : List (String × ℕ × ℕ) × List ℚ) : List (String × List ℚ) :=
  c.1.map (fun e => (e.1, (c.2.drop e.2.1).take e.2.2))

/-!
Concrete fixtures used by witnesses and counterexamples, and derived shape
checkers.
-/

/-- A small concrete configuration: batch 2 x 2, ratio 1, pretrain 1. -/
def cfg0 : DreamerConfig := ⟨2, 2, 1, 1, 1, 0, 1⟩

/-- The state `dreamerInit cfg0 0 []` constructs. -/
def sInit : DreamerState :=
  { cfg := cfg0, numTrainStepsF := 4, pretrained := false, step := 0,
    updateCount := 0, metrics := [], loggerStep := 0, datasetPos := 0,
    params := [] }

/-- A concrete configuration whose pretraining phase is two updates. -/
def cfg9 : DreamerConfig := ⟨1, 1, 1, 2, 1, 0, 1⟩

/-- The state `dreamerInit cfg9 0 []` constructs. -/
def s9 : DreamerState :=
  { cfg := cfg9, numTrainStepsF := 1, pretrained := false, step := 0,
    updateCount := 0, metrics := [], loggerStep := 0, datasetPos := 0,
    params := [] }

/-- Concrete collaborators: call `k` reports a single metric `"loss"`,
`1` on the first call and `2` afterwards. -/
def o9 : Oracles :=
  ⟨fun k => k, fun k => [("loss", if k == 0 then (1 : ℚ) else 2)]⟩

/-- Dynamics networks with the right shapes and trivial values, used to
discharge the shape contracts in witnesses (the spec deliberately leaves
the layer wiring open). -/
def trivNets (cfg : RSSMConfig) : RSSMNets :=
  { gruStep := fun _ _ _ => List.replicate cfg.deter_size 0
    priorLogits := fun _ => List.replicate cfg.num_groups (List.replicate cfg.num_classes 0)
    postLogits := fun _ _ => List.replicate cfg.num_groups (List.replicate cfg.num_classes 0)
    sampleStoch := fun _ smp => (List.replicate cfg.num_groups (List.replicate cfg.num_classes 0), ⟨smp.seedVal + 1⟩) }

/-- A policy head with the right shapes and trivial values. -/
def trivPolicy (A : ℕ) : PolicyNets :=
  { num_actions := A
    act := fun _ smp => (List.replicate A 0, ⟨smp.seedVal + 1⟩) }

/-!
Helper lemmas about the training loop.
-/

/-- The events of one loop iteration, by computation. -/
theorem trainStep1_events (o : Oracles) (s : DreamerState) :
    (trainStep1 o s).2 =
      [Ev.pull s.datasetPos, Ev.wmTrain s.datasetPos,
       Ev.acTrain (o.wmPost s.datasetPos)] := rfl

/-- The loop body does not touch the step counter. -/
theorem runTrainSteps_step (o : Oracles) : ∀ (n : ℕ) (s : DreamerState),
    (runTrainSteps o n s).1.step = s.step
  | 0, _ => rfl
  | n + 1, s => (runTrainSteps_step o n (trainStep1 o s).1).trans rfl

/-- The loop body does not touch the pretrained flag. -/
theorem runTrainSteps_pretrained (o : Oracles) : ∀ (n : ℕ) (s : DreamerState),
    (runTrainSteps o n s).1.pretrained = s.pretrained
  | 0, _ => rfl
  | n + 1, s => (runTrainSteps_pretrained o n (trainStep1 o s).1).trans rfl

/-- The loop body does not touch the configuration. -/
theorem runTrainSteps_cfg (o : Oracles) : ∀ (n : ℕ) (s : DreamerState),
    (runTrainSteps o n s).1.cfg = s.cfg
  | 0, _ => rfl
  | n + 1, s => (runTrainSteps_cfg o n (trainStep1 o s).1).trans rfl

/-- The loop advances the dataset iterator once per iteration. -/
theorem runTrainSteps_datasetPos (o : Oracles) : ∀ (n : ℕ) (s : DreamerState),
    (runTrainSteps o n s).1.datasetPos = s.datasetPos + n
  | 0, _ => rfl
  | n + 1, s => by
    have ih := runTrainSteps_datasetPos o n (trainStep1 o s).1
    have hpos : (trainStep1 o s).1.datasetPos = s.datasetPos + 1 := rfl
    calc (runTrainSteps o (n + 1) s).1.datasetPos
        = (runTrainSteps o n (trainStep1 o s).1).1.datasetPos := rfl
      _ = s.datasetPos + 1 + n := by rw [ih, hpos]
      _ = s.datasetPos + (n + 1) := by omega

/-- The exact event trace of the training loop: each iteration pulls one
batch, trains the world model on it, then trains the actor-critic seeded
with that same batch's posterior. -/
theorem runTrainSteps_trace (o : Oracles) : ∀ (n : ℕ) (s : DreamerState),
    (runTrainSteps o n s).2 =
      (List.range n).flatMap (fun i =>
        [Ev.pull (s.datasetPos + i), Ev.wmTrain (s.datasetPos + i),
         Ev.acTrain (o.wmPost (s.datasetPos + i))])
  | 0, _ => rfl
  | n + 1, s => by
    have ih := runTrainSteps_trace o n (trainStep1 o s).1
    have hpos : (trainStep1 o s).1.datasetPos = s.datasetPos + 1 := rfl
    have hsplit : (runTrainSteps o (n + 1) s).2 =
        (trainStep1 o s).2 ++ (runTrainSteps o n (trainStep1 o s).1).2 := rfl
    rw [hsplit, ih, hpos, trainStep1_events, List.range_succ_eq_map,
      List.flatMap_cons, List.flatMap_map]
    have harg : ∀ i : ℕ, s.datasetPos + 1 + i = s.datasetPos + Nat.succ i := by omega
    simp only [Nat.add_zero, harg]

/-- One pull event per loop iteration. -/
theorem runTrainSteps_pullCount (o : Oracles) (n : ℕ) (s : DreamerState) :
    pullCount (runTrainSteps o n s).2 = n := by
  rw [pullCount, runTrainSteps_trace]
  induction n with
  | zero => rfl
  | succ m ih =>
    rw [List.range_succ, List.flatMap_append, List.filter_append,
      List.length_append, ih]
    rfl

/-!
C1, C3, C10.
-/

/-- C1 (amended): construction fails iff `train_ratio = 0` (division by
zero), or the floor-divided train-step count is exactly zero, or
`action_repeat = 0` (division by zero); a negative derived count is not
caught, but when `train_ratio` is positive and `batch_size * batch_length`
nonnegative, successful construction stores a positive
`_num_train_steps`. -/
theorem dreamer_init_validation (c : DreamerConfig) (l : Int)
    (p : List (String × List ℚ)) :
    (initOk c l p = true ↔
      (c.train_ratio ≠ 0 ∧ numTrainSteps c ≠ 0 ∧ c.action_repeat ≠ 0))
    ∧ (∀ s, dreamerInit c l p = Except.ok s → 0 < c.train_ratio →
        0 ≤ c.batch_size * c.batch_length → 0 < s.numTrainStepsF) := by
  constructor
  · unfold initOk dreamerInit
    split_ifs with h1 h2 h3 <;> simp_all
  · intro s hs htr hbb
    unfold dreamerInit at hs
    split_ifs at hs with h1 h2 h3
    cases hs
    have hnn : 0 ≤ numTrainSteps c := Int.fdiv_nonneg hbb htr.le
    show 0 < numTrainSteps c
    omega

/-- Counterexample to C1 as stated: with `batch_size = 1`,
`batch_length = 1`, `train_ratio = -1` the derived train-step count is
`-1`, i.e. negative, yet construction succeeds (the code only tests
`== 0`), and the stored `_num_train_steps` is not positive. -/
theorem dreamer_init_validation_cex :
    numTrainSteps ⟨1, 1, -1, 0, 1, 0, 1⟩ < 0
    ∧ initOk ⟨1, 1, -1, 0, 1, 0, 1⟩ 0 [] = true := by decide

/-- Witness for C1 (amended) at `batch_size = 2`, `batch_length = 2`,
`train_ratio = 1`: construction succeeds and the stored count `4` is
positive. -/
theorem dreamer_init_validation_witness :
    initOk ⟨2, 2, 1, 1, 1, 0, 1⟩ 0 [] = true ∧ (0 : Int) < 4 :=
  ⟨by decide,
    (dreamer_init_validation ⟨2, 2, 1, 1, 1, 0, 1⟩ 0 []).2
      { cfg := ⟨2, 2, 1, 1, 1, 0, 1⟩, numTrainStepsF := 4, pretrained := false,
        step := 0, updateCount := 0, metrics := [], loggerStep := 0,
        datasetPos := 0, params := [] }
      (by rfl) (by decide) (by decide)⟩

/-- C3: the training loop's event trace is exactly, per step: one dataset
pull, then `world_model.train` on that batch, then `actor_critic.train`
seeded with the posterior sequence returned by that same
`world_model.train` call — so the actor-critic update never precedes the
world-model update of its step and never uses another step's seed; and the
events of a training `__call__` are exactly those of its loop. -/
theorem train_step_order (o : Oracles) (n lenDone : ℕ) (s : DreamerState) :
    (runTrainSteps o n s).2 =
      (List.range n).flatMap (fun i =>
        [Ev.pull (s.datasetPos + i), Ev.wmTrain (s.datasetPos + i),
         Ev.acTrain (o.wmPost (s.datasetPos + i))])
    ∧ pullCount (runTrainSteps o n s).2 = n
    ∧ (dreamerCall o true lenDone s).events = (runTrainSteps o (numStepsOf s) s).2 :=
  ⟨runTrainSteps_trace o n s, runTrainSteps_pullCount o n s, rfl⟩

/-- C10: a non-training call leaves the whole agent state (step counter,
update count, metric accumulators, pretrained flag, logger step, dataset
position, parameters) unchanged, pulls no batch, writes nothing, and its
explore flag is set iff the current step counter is below `expl_until`. -/
theorem call_notraining_frame (o : Oracles) (lenDone : ℕ) (s : DreamerState) :
    (dreamerCall o false lenDone s).state = s
    ∧ (dreamerCall o false lenDone s).events = []
    ∧ (dreamerCall o false lenDone s).written = none
    ∧ ((dreamerCall o false lenDone s).explore = true ↔ s.step < s.cfg.expl_until) := by
  refine ⟨rfl, rfl, rfl, ?_⟩
  simp [dreamerCall]

/-- A training call pulls exactly `num_steps` batches. -/
theorem dreamerCall_pullCount (o : Oracles) (lenDone : ℕ) (s : DreamerState) :
    pullCount (dreamerCall o true lenDone s).events = numStepsOf s :=
  runTrainSteps_pullCount o (numStepsOf s) s

/-- C7: when a checkpoint exists at startup the agent's parameters are
replaced by its contents and the pretrained flag is set, so the first
training call runs `_num_train_steps` updates; without a checkpoint the
first training call runs `config.pretrain` updates; and every training
call leaves the pretrained flag set, so all subsequent calls use
`_num_train_steps`. -/
theorem checkpoint_pretrain (o : Oracles) (c : DreamerConfig) (l : Int)
    (p ckpt : List (String × List ℚ)) (lenDone : ℕ) (s : DreamerState)
    (hs : dreamerInit c l p = Except.ok s) :
    (mainStartup true ckpt s).pretrained = true
    ∧ (mainStartup true ckpt s).params = ckpt
    ∧ (mainStartup false ckpt s).pretrained = false
    ∧ (mainStartup false ckpt s).params = p
    ∧ pullCount (dreamerCall o true lenDone (mainStartup true ckpt s)).events
        = s.numTrainStepsF.toNat
    ∧ pullCount (dreamerCall o true lenDone (mainStartup false ckpt s)).events
        = c.pretrain.toNat
    ∧ (∀ s2 : DreamerState, (dreamerCall o true lenDone s2).state.pretrained = true) := by
  unfold dreamerInit at hs
  split_ifs at hs with h1 h2 h3
  cases hs
  exact ⟨rfl, rfl, rfl, rfl, dreamerCall_pullCount o lenDone _,
    dreamerCall_pullCount o lenDone _, fun s2 => rfl⟩

/-- Witness for C7: with `cfg0` (derived count 4, pretrain 1), checkpoint
startup makes the first call run 4 updates, fresh startup runs 1. -/
theorem checkpoint_pretrain_witness :
    (mainStartup true [("w", [(1 : ℚ)])] sInit).pretrained = true
    ∧ pullCount (dreamerCall o9 true 1 (mainStartup true [("w", [(1 : ℚ)])] sInit)).events = 4
    ∧ pullCount (dreamerCall o9 true 1 (mainStartup false [("w", [(1 : ℚ)])] sInit)).events = 1 := by
  have h := checkpoint_pretrain o9 cfg0 0 [] [("w", [(1 : ℚ)])] 1 sInit (by rfl)
  exact ⟨h.1, h.2.2.2.2.1, h.2.2.2.2.2.1⟩

/-!
Helper lemmas about the metric accumulators.
-/

/-- Looking up the key just assigned. -/
theorem lookup_setA_self (k : String) (v : MetricVal) :
    ∀ m : List (String × MetricVal), List.lookup k (setA m k v) = some v := by
  intro m
  induction m with
  | nil => simp [setA, List.lookup]
  | cons p rest ih =>
    by_cases h : p.1 = k
    · simp [setA, h, List.lookup]
    · have h2 : (p.1 == k) = false := by simpa using h
      have h3 : (k == p.1) = false := by simpa using Ne.symm h
      simp [setA, h2, List.lookup, h3, ih]

/-- Assignment does not disturb other keys. -/
theorem lookup_setA_ne (k q : String) (v : MetricVal) (hne : q ≠ k) :
    ∀ m : List (String × MetricVal), List.lookup q (setA m k v) = List.lookup q m := by
  intro m
  have hqk : (q == k) = false := by simpa using hne
  induction m with
  | nil => simp [setA, List.lookup, hqk]
  | cons p rest ih =>
    by_cases h : p.1 = k
    · have h2 : (p.1 == k) = true := by simpa using h
      have h3 : (q == p.1) = false := by rw [h]; exact hqk
      simp [setA, h2, List.lookup, hqk, h3]
    · have h2 : (p.1 == k) = false := by simpa using h
      by_cases hq : q = p.1
      · simp [setA, h2, List.lookup, hq]
      · have h3 : (q == p.1) = false := by simpa using hq
        simp [setA, h2, List.lookup, h3, ih]

/-- Accumulator content of other keys is untouched by assignment. -/
theorem accList_setA_ne (m : List (String × MetricVal)) (k q : String)
    (x : MetricVal) (hne : q ≠ k) : accList (setA m k x) q = accList m q := by
  simp [accList, lookup_setA_ne k q x hne m]

/-- Appending to a metric extends its accumulator by one value. -/
theorem accList_appendMetric_self (m : List (String × MetricVal)) (k : String)
    (v : ℚ) : accList (appendMetric m k v) k = accList m k ++ [v] := by
  unfold appendMetric accList
  rw [lookup_setA_self]

/-- Appending to one metric leaves the others' accumulators unchanged. -/
theorem accList_appendMetric_ne (m : List (String × MetricVal)) (k q : String)
    (v : ℚ) (hne : q ≠ k) : accList (appendMetric m k v) q = accList m q :=
  accList_setA_ne m k q _ hne

/-- Folding a metrics dict into the accumulators appends, per key, exactly
the values recorded under that key, in order. -/
theorem accList_foldl_appendMetric (name : String) :
    ∀ (l : List (String × ℚ)) (m : List (String × MetricVal)),
      accList (l.foldl (fun m2 p => appendMetric m2 p.1 p.2) m) name
        = accList m name ++ (l.filter (fun p => p.1 == name)).map Prod.snd
  | [], m => by simp
  | (k, v) :: rest, m => by
    have ih := accList_foldl_appendMetric name rest (appendMetric m k v)
    by_cases hk : k = name
    · subst hk
      simp only [List.foldl_cons] at ih ⊢
      rw [ih, accList_appendMetric_self]
      simp [List.filter_cons]
    · have h2 : (k == name) = false := by simpa using hk
      simp only [List.foldl_cons] at ih ⊢
      rw [ih, accList_appendMetric_ne m k name v (fun h => hk h.symm)]
      simp [List.filter_cons, h2]

/-- Accumulator effect of one loop iteration on a list-valued metric. -/
theorem accList_trainStep1 (o : Oracles) (s : DreamerState) (name : String)
    (hname : name ≠ "update_count") :
    accList (trainStep1 o s).1.metrics name
      = accList s.metrics name
        ++ ((o.trainMets s.datasetPos).filter (fun p => p.1 == name)).map Prod.snd := by
  show accList (setA _ "update_count" _) name = _
  rw [accList_setA_ne _ _ _ _ hname, accList_foldl_appendMetric]

/-- Accumulator effect of the whole training loop on a list-valued
metric: the values of every processed batch are appended in order. -/
theorem accList_runTrainSteps (o : Oracles) (name : String)
    (hname : name ≠ "update_count") :
    ∀ (n : ℕ) (s : DreamerState),
      accList (runTrainSteps o n s).1.metrics name
        = accList s.metrics name ++ callVals o s.datasetPos n name
  | 0, s => by simp [runTrainSteps, callVals]
  | n + 1, s => by
    have ih := accList_runTrainSteps o name hname n (trainStep1 o s).1
    have h1 : (runTrainSteps o (n + 1) s).1 = (runTrainSteps o n (trainStep1 o s).1).1 := rfl
    have hpos : (trainStep1 o s).1.datasetPos = s.datasetPos + 1 := rfl
    rw [h1, ih, hpos, accList_trainStep1 o s name hname, List.append_assoc]
    congr 1
    unfold callVals
    rw [List.range_succ_eq_map, List.flatMap_cons, List.flatMap_map]
    have harg :
        (fun i => ((o.trainMets (s.datasetPos + 1 + i)).filter (fun p => p.1 == name)).map Prod.snd)
          = fun i => ((o.trainMets (s.datasetPos + Nat.succ i)).filter (fun p => p.1 == name)).map Prod.snd := by
      funext i
      have h : s.datasetPos + 1 + i = s.datasetPos + Nat.succ i := by omega
      rw [h]
    rw [harg]
    simp

/-- The scalars handed to the logger are, per key, the `np.mean` of the
dict entry at write time. -/
theorem lookup_writeScalars (name : String) :
    ∀ m : List (String × MetricVal),
      List.lookup name (writeScalars m) = (List.lookup name m).map pymean
  | [] => rfl
  | p :: rest => by
    by_cases h : name = p.1
    · have h2 : (name == p.1) = true := by simpa using h
      simp [writeScalars, List.lookup, h2]
    · have h2 : (name == p.1) = false := by simpa using h
      simp only [writeScalars, List.map_cons, List.lookup, h2]
      exact lookup_writeScalars name rest

/-- After a write, every entry holds the empty list. -/
theorem lookup_resetMetrics (name : String) :
    ∀ m : List (String × MetricVal),
      List.lookup name (resetMetrics m)
        = (List.lookup name m).map (fun _ => MetricVal.listV [])
  | [] => rfl
  | p :: rest => by
    by_cases h : name = p.1
    · have h2 : (name == p.1) = true := by simpa using h
      simp [resetMetrics, List.lookup, h2]
    · have h2 : (name == p.1) = false := by simpa using h
      simp only [resetMetrics, List.map_cons, List.lookup, h2]
      exact lookup_resetMetrics name rest

/-- After a write, every accumulator is empty. -/
theorem accList_resetMetrics (name : String) (m : List (String × MetricVal)) :
    accList (resetMetrics m) name = [] := by
  unfold accList
  rw [lookup_resetMetrics]
  cases List.lookup name m <;> rfl

/-- The write condition only reads fields the loop does not touch. -/
theorem writeCond_runTrainSteps (o : Oracles) (n : ℕ) (s : DreamerState) :
    writeCond (runTrainSteps o n s).1 = writeCond s := by
  unfold writeCond
  rw [runTrainSteps_pretrained, runTrainSteps_step, runTrainSteps_cfg]

/-- The write condition, spelled out. -/
theorem writeCond_iff (s : DreamerState) :
    writeCond s = true ↔ (s.pretrained = false ∨ Int.fmod s.step s.cfg.log_every = 0) := by
  unfold writeCond
  simp [Bool.or_eq_true, Bool.not_eq_true', beq_iff_eq]

/-- What a training call writes to the logger. -/
theorem dreamerCall_written (o : Oracles) (lenDone : ℕ) (s : DreamerState) :
    (dreamerCall o true lenDone s).written =
      if writeCond s then some (writeScalars (runTrainSteps o (numStepsOf s) s).1.metrics)
      else none := by
  show (if writeCond (runTrainSteps o (numStepsOf s) s).1 then _ else _) = _
  rw [writeCond_runTrainSteps]

/-- The metric accumulators a training call leaves behind. -/
theorem dreamerCall_state_metrics (o : Oracles) (lenDone : ℕ) (s : DreamerState) :
    (dreamerCall o true lenDone s).state.metrics =
      if writeCond s then resetMetrics (runTrainSteps o (numStepsOf s) s).1.metrics
      else (runTrainSteps o (numStepsOf s) s).1.metrics := by
  show (if writeCond (runTrainSteps o (numStepsOf s) s).1 then _ else _) = _
  rw [writeCond_runTrainSteps]

/-- A nonempty accumulator really is stored as that list. -/
theorem lookup_of_accList (m : List (String × MetricVal)) (name : String)
    (h : accList m name ≠ []) :
    List.lookup name m = some (MetricVal.listV (accList m name)) := by
  unfold accList at *
  cases hl : List.lookup name m with
  | none => rw [hl] at h; simp at h
  | some v =>
    cases v with
    | listV l => simp [hl]
    | scalarV q => rw [hl] at h; simp at h

/-- The mean of a nonempty list accumulator. -/
theorem pymean_listV (l : List ℚ) (h : l ≠ []) :
    pymean (MetricVal.listV l) = l.sum / (l.length : ℚ) := by
  cases l with
  | nil => exact absurd rfl h
  | cons a t => rfl

/-!
C9.
-/

/-- C9 (amended): a training call writes iff the agent was not yet
pretrained or the step counter meets the log cadence; on a write, each
metric key is reported as the `np.mean` of its dict entry and every
accumulator is then reset to empty; without a write the accumulators carry
over.  For every metric accumulated by `_train` (every key other than
`update_count`) the accumulator after the loop holds exactly the previous
window's values followed by this call's per-train-call values, so the
reported value is their arithmetic mean; the `update_count` entry is
instead overwritten with the latest count each update, so its reported
value is the latest count rather than a mean. -/
theorem metrics_write_mean (o : Oracles) (lenDone : ℕ) (s : DreamerState)
    (name : String) (hname : name ≠ "update_count")
    (_hdisj : ∀ k : ℕ, (o.trainMets k).filter (fun p => p.1 == "update_count") = []) :
    ((dreamerCall o true lenDone s).written.isSome = true ↔
        (s.pretrained = false ∨ Int.fmod s.step s.cfg.log_every = 0))
    ∧ (writeCond s = true →
        (dreamerCall o true lenDone s).written
            = some (writeScalars (runTrainSteps o (numStepsOf s) s).1.metrics)
          ∧ List.lookup name (writeScalars (runTrainSteps o (numStepsOf s) s).1.metrics)
            = (List.lookup name (runTrainSteps o (numStepsOf s) s).1.metrics).map pymean
          ∧ accList (dreamerCall o true lenDone s).state.metrics name = [])
    ∧ (writeCond s = false →
        (dreamerCall o true lenDone s).written = none
          ∧ accList (dreamerCall o true lenDone s).state.metrics name
            = accList s.metrics name ++ callVals o s.datasetPos (numStepsOf s) name)
    ∧ accList (runTrainSteps o (numStepsOf s) s).1.metrics name
        = accList s.metrics name ++ callVals o s.datasetPos (numStepsOf s) name
    ∧ (accList s.metrics name ++ callVals o s.datasetPos (numStepsOf s) name ≠ [] →
        List.lookup name (runTrainSteps o (numStepsOf s) s).1.metrics
            = some (MetricVal.listV
                (accList s.metrics name ++ callVals o s.datasetPos (numStepsOf s) name))
          ∧ pymean (MetricVal.listV
                (accList s.metrics name ++ callVals o s.datasetPos (numStepsOf s) name))
            = (accList s.metrics name ++ callVals o s.datasetPos (numStepsOf s) name).sum
              / ((accList s.metrics name ++ callVals o s.datasetPos (numStepsOf s) name).length : ℚ)) := by
  have hM := accList_runTrainSteps o name hname (numStepsOf s) s
  refine ⟨?_, ?_, ?_, hM, ?_⟩
  · rw [dreamerCall_written, ← writeCond_iff]
    by_cases hw : writeCond s = true <;> simp [hw]
  · intro hw
    refine ⟨?_, lookup_writeScalars name _, ?_⟩
    · rw [dreamerCall_written, if_pos hw]
    · rw [accList, dreamerCall_state_metrics, if_pos hw, lookup_resetMetrics]
      cases List.lookup name (runTrainSteps o (numStepsOf s) s).1.metrics <;> rfl
  · intro hw
    have hw2 : ¬writeCond s = true := by simp [hw]
    constructor
    · rw [dreamerCall_written, if_neg hw2]
    · rw [dreamerCall_state_metrics, if_neg hw2]
      exact hM
  · intro hne
    have hl := lookup_of_accList (runTrainSteps o (numStepsOf s) s).1.metrics name
      (by rw [hM]; exact hne)
    rw [hM] at hl
    exact ⟨hl, pymean_listV _ hne⟩

/-- Counterexample to C9 as stated: in the concrete run `o9`, `s9`
(two pretraining updates, one metric `"loss"` with values 1 then 2) the
first call reports `loss = 3/2`, the mean, but reports
`update_count = 2`, the latest count of the two per-train-call counts
1 and 2 recorded in the window — not their mean `3/2`. -/
theorem metrics_write_mean_cex :
    (dreamerCall o9 true 1 s9).written
      = some [("loss", 3 / 2), ("update_count", ((2 : Int) : ℚ))]
    ∧ (runTrainSteps o9 1 s9).1.updateCount = 1
    ∧ (runTrainSteps o9 2 s9).1.updateCount = 2
    ∧ ((1 : ℚ) + 2) / 2 ≠ 2 := by
  have hA : (dreamerCall o9 true 1 s9).written
      = some (writeScalars
          [("loss", MetricVal.listV [1, 2]),
           ("update_count", MetricVal.scalarV ((2 : Int) : ℚ))]) := rfl
  refine ⟨?_, rfl, rfl, by norm_num⟩
  rw [hA]
  simp [writeScalars, pymean]
  norm_num

/-- Witness for C9 (amended): in the run `o9`, `s9` the first call does
write, and the accumulated `"loss"` window `[1, 2]` is reported as its
arithmetic mean. -/
theorem metrics_write_mean_witness :
    (dreamerCall o9 true 1 s9).written.isSome = true
    ∧ pymean (MetricVal.listV
          (accList s9.metrics "loss" ++ callVals o9 s9.datasetPos (numStepsOf s9) "loss"))
        = (accList s9.metrics "loss" ++ callVals o9 s9.datasetPos (numStepsOf s9) "loss").sum
          / ((accList s9.metrics "loss" ++ callVals o9 s9.datasetPos (numStepsOf s9) "loss").length : ℚ) := by
  have h := metrics_write_mean o9 1 s9 "loss" (by decide) (fun k => rfl)
  exact ⟨h.1.mpr (Or.inl rfl), (h.2.2.2.2 (by decide)).2⟩

/-!
C2: the lambda-return recursion.
-/

/-- At the horizon the target is the bootstrap value. -/
theorem lambdaTarget_boundary (lam : ℚ) (r d v : ℕ → ℚ) (H : ℕ) :
    lambdaTarget lam r d v H H = v H := by
  unfold lambdaTarget
  rw [Nat.sub_self]
  rfl

/-- Below the horizon the target satisfies the backward recursion. -/
theorem lambdaTarget_unfold (lam : ℚ) (r d v : ℕ → ℚ) (H t : ℕ) (ht : t < H) :
    lambdaTarget lam r d v H t
      = r t + d t * ((1 - lam) * v (t + 1) + lam * lambdaTarget lam r d v H (t + 1)) := by
  unfold lambdaTarget
  have h : H - t = (H - (t + 1)) + 1 := by omega
  rw [h]
  rfl

/-- C2 (amended): the returns estimator satisfies
`target[t] = reward[t] + discount[t]*((1-lam)*value[t+1] + lam*target[t+1])`
with boundary `target[H] = value[H]`; for a rollout with zero rewards and
discount 1 everywhere, `target[H-1] = value[H]`, and when additionally
`lam = 0`, `target[t] = value[t+1]` for every `t < H`. -/
theorem lambda_return_recursion (lam : ℚ) (r d v : ℕ → ℚ) (H t : ℕ) (ht : t < H) :
    lambdaTarget lam r d v H H = v H
    ∧ lambdaTarget lam r d v H t
        = r t + d t * ((1 - lam) * v (t + 1) + lam * lambdaTarget lam r d v H (t + 1))
    ∧ (1 ≤ H → lambdaTarget lam (fun _ => 0) (fun _ => 1) v H (H - 1) = v H)
    ∧ lambdaTarget 0 (fun _ => 0) (fun _ => 1) v H t = v (t + 1) := by
  refine ⟨lambdaTarget_boundary .., lambdaTarget_unfold lam r d v H t ht, ?_, ?_⟩
  · intro h1
    have h2 : H - 1 < H := by omega
    rw [lambdaTarget_unfold _ _ _ _ _ _ h2]
    have h3 : H - 1 + 1 = H := by omega
    rw [h3, lambdaTarget_boundary]
    ring
  · rw [lambdaTarget_unfold _ _ _ _ _ _ ht]
    ring

/-- Counterexample to C2 as stated: horizon 2, lambda 1/2, zero rewards,
discount 1, values (0, 0, 1): the claim demands `target[0] = value[1] = 0`
for `t = 0 < H - 1`, but the recursion gives `target[0] = 1/2`. -/
theorem lambda_return_recursion_cex :
    lambdaTarget (1 / 2) (fun _ => 0) (fun _ => 1)
        (fun n => if n = 2 then (1 : ℚ) else 0) 2 0 = 1 / 2
    ∧ (if (1 : ℕ) = 2 then (1 : ℚ) else 0) = 0
    ∧ (1 : ℚ) / 2 ≠ 0 := by
  refine ⟨?_, by norm_num, by norm_num⟩
  have h0 := lambdaTarget_unfold (1 / 2) (fun _ => 0) (fun _ => 1)
    (fun n => if n = 2 then (1 : ℚ) else 0) 2 0 (by omega)
  have h1 := lambdaTarget_unfold (1 / 2) (fun _ => 0) (fun _ => 1)
    (fun n => if n = 2 then (1 : ℚ) else 0) 2 1 (by omega)
  have h2 := lambdaTarget_boundary (1 / 2) (fun _ => 0) (fun _ => 1)
    (fun n => if n = 2 then (1 : ℚ) else 0) 2
  rw [h0]
  norm_num [h1, h2]

/-- Witness for C2 (amended) at `H = 3`, `t = 1`, `lam = 0`,
`value n = n`: the target is the next value. -/
theorem lambda_return_recursion_witness :
    (1 : ℕ) < 3
    ∧ lambdaTarget 0 (fun _ => (0 : ℚ)) (fun _ => 1) (fun n => (n : ℚ)) 3 1
        = ((1 + 1 : ℕ) : ℚ) :=
  ⟨by decide,
    (lambda_return_recursion 0 (fun _ => 0) (fun _ => 1) (fun n => (n : ℚ)) 3 1
      (by decide)).2.2.2⟩

/-!
C4: the RewardEMA update.
-/

/-- C4: one RewardEMA update with decay 1 leaves the pair unchanged; with
decay 0 it becomes exactly the 5th and 95th percentiles of the targets; in
general each component is `decay * old + (1 - decay) * percentile`; the
returned offset is the (updated) p5 and the returned scale is
`max 1 (p95 - p5)`. -/
theorem reward_ema_update (targets : List ℚ) (ema : ℚ × ℚ) (decay : ℚ) :
    (rewardEMA 1 targets ema).2.2 = ema
    ∧ (rewardEMA 0 targets ema).2.2
        = (pyQuantile (5 / 100) targets, pyQuantile (95 / 100) targets)
    ∧ (rewardEMA decay targets ema).2.2
        = (decay * ema.1 + (1 - decay) * pyQuantile (5 / 100) targets,
           decay * ema.2 + (1 - decay) * pyQuantile (95 / 100) targets)
    ∧ (rewardEMA decay targets ema).1 = (rewardEMA decay targets ema).2.2.1
    ∧ (rewardEMA decay targets ema).2.1
        = max 1 ((rewardEMA decay targets ema).2.2.2 - (rewardEMA decay targets ema).2.2.1) := by
  refine ⟨?_, ?_, rfl, rfl, rfl⟩
  · obtain ⟨a, b⟩ := ema
    simp only [rewardEMA, Prod.mk.injEq]
    constructor <;> ring
  · obtain ⟨a, b⟩ := ema
    simp only [rewardEMA, Prod.mk.injEq]
    constructor <;> ring

/-!
C8: checkpoint round trip.
-/

/-- Deserializing a just-serialized state dict restores it exactly. -/
theorem safeLoad_safeSave : ∀ d : List (String × List ℚ), safeLoad (safeSave d) = d
  | [] => rfl
  | (n, t) :: rest => by
    have ih := safeLoad_safeSave rest
    have hstep : safeLoad (safeSave ((n, t) :: rest))
        = (n, ((t ++ (safeSave rest).2).drop 0).take t.length)
          :: ((safeSave rest).1.map (fun e => (e.1, t.length + e.2.1, e.2.2))).map
               (fun e => (e.1, ((t ++ (safeSave rest).2).drop e.2.1).take e.2.2)) := rfl
    rw [hstep, List.map_map]
    congr 1
    · rw [List.drop_zero, List.take_left]
    · have hfun : ((fun e : String × ℕ × ℕ =>
              (e.1, ((t ++ (safeSave rest).2).drop e.2.1).take e.2.2))
            ∘ fun e : String × ℕ × ℕ => (e.1, t.length + e.2.1, e.2.2))
          = fun e : String × ℕ × ℕ =>
              (e.1, ((safeSave rest).2.drop e.2.1).take e.2.2) := by
        funext e
        simp [Function.comp, List.drop_append]
      rw [hfun]
      exact ih

/-- C8: saving the parameter mapping and loading it back reproduces the
tensors bit-identically, and any forward pass run on the reloaded
parameters gives the same output as before the round trip. -/
theorem checkpoint_roundtrip (d : List (String × List ℚ))
    (fwd : List (String × List ℚ) → ℚ → ℚ) (x : ℚ) :
    safeLoad (safeSave d) = d ∧ fwd (safeLoad (safeSave d)) x = fwd d x :=
  ⟨safeLoad_safeSave d, by rw [safeLoad_safeSave]⟩

/-!
Shape lemmas for the dynamics model.
-/

/-- Building a well-formed state from well-formed parts. -/
theorem stateWF_mk (cfg : RSSMConfig) (st : List (List ℚ)) (dt : List ℚ)
    (h1 : shapeGC cfg st = true) (h2 : dt.length = cfg.deter_size) :
    stateWF cfg ⟨st, dt⟩ = true := by
  unfold stateWF
  simp [h1, h2]

/-- Sum of constantly-`C` lengths over `G` rows is `G * C`. -/
theorem sum_map_length (C : ℕ) : ∀ l : List (List ℚ),
    (∀ g ∈ l, g.length = C) → (l.map List.length).sum = l.length * C
  | [], _ => by simp
  | x :: xs, h => by
    have hx := h x (List.mem_cons_self x xs)
    have ih := sum_map_length C xs (fun g hg => h g (List.mem_cons_of_mem x hg))
    simp only [List.map_cons, List.sum_cons, List.length_cons, hx, ih]
    ring

/-- A well-formed state's feature vector has the configured length. -/
theorem get_feat_len (cfg : RSSMConfig) (s : LatentState)
    (h : stateWF cfg s = true) : (get_feat s).length = featLen cfg := by
  unfold stateWF shapeGC at h
  simp only [Bool.and_eq_true, List.all_eq_true, beq_iff_eq] at h
  obtain ⟨⟨hG, hC⟩, hD⟩ := h
  unfold get_feat featLen
  rw [List.length_append, hD, List.length_flatten, sum_map_length cfg.num_classes s.stoch hC, hG]

/-- The zero state is well-formed. -/
theorem initialLatent_wf (cfg : RSSMConfig) : stateWF cfg (initialLatent cfg) = true := by
  simp [initialLatent, stateWF, shapeGC, List.all_eq_true, List.mem_replicate]

/-- The trivial networks satisfy the shape contracts. -/
theorem trivNets_wf (cfg : RSSMConfig) : netsWF cfg (trivNets cfg) := by
  refine ⟨fun d st a => by simp [trivNets], fun d => ?_, fun d e => ?_, fun l smp => ?_⟩ <;>
    simp [trivNets, shapeGC, List.all_eq_true, List.mem_replicate]

/-- Both states an observation step produces are well-formed. -/
theorem obs_step_wf (cfg : RSSMConfig) (nets : RSSMNets) (hn : netsWF cfg nets)
    (prev : LatentState) (a e : List ℚ) (isFirst : Bool) (smp : Sampler) :
    stateWF cfg (obs_step cfg nets prev a e isFirst smp).1 = true
    ∧ stateWF cfg (obs_step cfg nets prev a e isFirst smp).2.1 = true := by
  obtain ⟨hgru, hprior, hpost, hsample⟩ := hn
  have hd : (if isFirst then (initialLatent cfg).deter
      else nets.gruStep prev.deter prev.stoch.flatten a).length = cfg.deter_size := by
    cases isFirst
    · simpa using hgru prev.deter prev.stoch.flatten a
    · simp [initialLatent]
  exact ⟨stateWF_mk cfg _ _ (hsample _ _) hd, stateWF_mk cfg _ _ (hsample _ _) hd⟩

/-- The scan over one batch row yields one (posterior, prior) pair per
timestep, all well-formed. -/
theorem observeRow_shapes (cfg : RSSMConfig) (nets : RSSMNets) (hn : netsWF cfg nets) :
    ∀ (row : List (List ℚ × List ℚ × Bool)) (prev : LatentState) (smp : Sampler),
      (observeRow cfg nets row prev smp).1.length = row.length
      ∧ ∀ pq ∈ (observeRow cfg nets row prev smp).1,
          stateWF cfg pq.1 = true ∧ stateWF cfg pq.2 = true
  | [], _, _ => by simp [observeRow]
  | (e, a, f) :: rest, prev, smp => by
    have hstep := obs_step_wf cfg nets hn prev a e f smp
    have ih := observeRow_shapes cfg nets hn rest
      (obs_step cfg nets prev a e f smp).1 (obs_step cfg nets prev a e f smp).2.2
    have hsplit : (observeRow cfg nets ((e, a, f) :: rest) prev smp).1
        = ((obs_step cfg nets prev a e f smp).1, (obs_step cfg nets prev a e f smp).2.1)
          :: (observeRow cfg nets rest (obs_step cfg nets prev a e f smp).1
                (obs_step cfg nets prev a e f smp).2.2).1 := rfl
    rw [hsplit]
    refine ⟨by simp [ih.1], ?_⟩
    intro pq hpq
    rcases List.mem_cons.mp hpq with h | h
    · subst h
      exact hstep
    · exact ih.2 pq h

/-- Batched `observe` yields one row per batch element, each row one state
pair per timestep, all well-formed. -/
theorem observe_shapes (cfg : RSSMConfig) (nets : RSSMNets) (hn : netsWF cfg nets)
    (T : ℕ) :
    ∀ (rows : List (List (List ℚ × List ℚ × Bool))) (inits : List LatentState)
      (smp : Sampler), rows.length = inits.length → (∀ row ∈ rows, row.length = T) →
      (observe cfg nets rows inits smp).1.length = rows.length
      ∧ ∀ r ∈ (observe cfg nets rows inits smp).1,
          r.length = T ∧ ∀ pq ∈ r, stateWF cfg pq.1 = true ∧ stateWF cfg pq.2 = true
  | [], _, smp, _, _ => by simp [observe]
  | row :: rows, [], smp, hlen, _ => by simp at hlen
  | row :: rows, init :: inits, smp, hlen, hT => by
    have hrow := observeRow_shapes cfg nets hn row init smp
    have ih := observe_shapes cfg nets hn T rows inits
      (observeRow cfg nets row init smp).2
      (by simpa using hlen) (fun r hr => hT r (List.mem_cons_of_mem _ hr))
    have hsplit : (observe cfg nets (row :: rows) (init :: inits) smp).1
        = (observeRow cfg nets row init smp).1
          :: (observe cfg nets rows inits (observeRow cfg nets row init smp).2).1 := rfl
    rw [hsplit]
    refine ⟨by simp [ih.1], ?_⟩
    intro r hr
    rcases List.mem_cons.mp hr with h | h
    · subst h
      exact ⟨hrow.1.trans (hT row (List.mem_cons_self _ _)), hrow.2⟩
    · exact ih.2 r h

/-- C5: the world model's observe/train pass returns a posterior state
sequence with exactly one row per batch element and one state per
timestep; every state has stochastic shape `num_groups × num_classes` and
deterministic length `deter_size`, and its feature vector has length
`deter_size + num_groups * num_classes`; under the default configuration
(32 groups, 32 classes, 512 deterministic) the feature length is 1536. -/
theorem world_model_train_shapes (cfg : RSSMConfig) (nets : RSSMNets)
    (hn : netsWF cfg nets) (T : ℕ)
    (rows : List (List (List ℚ × List ℚ × Bool))) (inits : List LatentState)
    (smp : Sampler) (hlen : rows.length = inits.length)
    (hT : ∀ row ∈ rows, row.length = T) :
    (wmTrainPosts cfg nets rows inits smp).length = rows.length
    ∧ (∀ r ∈ wmTrainPosts cfg nets rows inits smp,
        r.length = T ∧ ∀ st ∈ r, stateWF cfg st = true
          ∧ (get_feat st).length = featLen cfg)
    ∧ featLen ⟨32, 32, 512⟩ = 1536 := by
  have h := observe_shapes cfg nets hn T rows inits smp hlen hT
  refine ⟨by unfold wmTrainPosts; simp [h.1], ?_, rfl⟩
  intro r hr
  unfold wmTrainPosts at hr
  rcases List.mem_map.mp hr with ⟨r0, hr0, hr0eq⟩
  subst hr0eq
  obtain ⟨hlen0, hwf0⟩ := h.2 r0 hr0
  refine ⟨by simp [hlen0], ?_⟩
  intro st hst
  rcases List.mem_map.mp hst with ⟨pq, hpq, hpqeq⟩
  subst hpqeq
  have hw := (hwf0 pq hpq).1
  exact ⟨hw, get_feat_len cfg _ hw⟩

/-- Witness for C5 at the default configuration, batch 4, length 2, with
trivially-shaped networks. -/
theorem world_model_train_shapes_witness :
    (wmTrainPosts ⟨32, 32, 512⟩ (trivNets ⟨32, 32, 512⟩)
        (List.replicate 4 (List.replicate 2 (([] : List ℚ), ([] : List ℚ), false)))
        (initialBatch ⟨32, 32, 512⟩ 4) ⟨0⟩).length
      = (List.replicate 4 (List.replicate 2 (([] : List ℚ), ([] : List ℚ), false))).length
    ∧ featLen ⟨32, 32, 512⟩ = 1536 := by
  have h := world_model_train_shapes ⟨32, 32, 512⟩ (trivNets ⟨32, 32, 512⟩)
    (trivNets_wf _) 2
    (List.replicate 4 (List.replicate 2 (([] : List ℚ), ([] : List ℚ), false)))
    (initialBatch ⟨32, 32, 512⟩ 4) ⟨0⟩ (by simp [initialBatch])
    (fun row hrow => by rw [List.eq_of_mem_replicate hrow]; simp)
  exact ⟨h.1, h.2.2⟩

/-!
Shape lemmas for the imagination rollout.
-/

/-- Threading the sampler preserves the batch size. -/
theorem mapSampler_length {α β : Type} (f : α → Sampler → β × Sampler) :
    ∀ (xs : List α) (smp : Sampler), (mapSampler f xs smp).1.length = xs.length
  | [], _ => rfl
  | x :: xs, smp => by
    have ih := mapSampler_length f xs (f x smp).2
    have hsplit : (mapSampler f (x :: xs) smp).1
        = (f x smp).1 :: (mapSampler f xs (f x smp).2).1 := rfl
    rw [hsplit, List.length_cons, ih, List.length_cons]

/-- Every thread-sampled element is an output of `f`. -/
theorem mapSampler_mem {α β : Type} (f : α → Sampler → β × Sampler) :
    ∀ (xs : List α) (smp : Sampler), ∀ y ∈ (mapSampler f xs smp).1,
      ∃ x smp2, x ∈ xs ∧ y = (f x smp2).1
  | [], _, y, hy => by simp [mapSampler] at hy
  | x :: xs, smp, y, hy => by
    have hsplit : (mapSampler f (x :: xs) smp).1
        = (f x smp).1 :: (mapSampler f xs (f x smp).2).1 := rfl
    rw [hsplit] at hy
    rcases List.mem_cons.mp hy with h | h
    · exact ⟨x, smp, List.mem_cons_self x xs, h⟩
    · rcases mapSampler_mem f xs (f x smp).2 y h with ⟨x2, smp2, hx2, hy2⟩
      exact ⟨x2, smp2, List.mem_cons_of_mem _ hx2, hy2⟩

/-- The prior transition produces a well-formed state. -/
theorem img_step_wf (cfg : RSSMConfig) (nets : RSSMNets) (hn : netsWF cfg nets)
    (s : LatentState) (a : List ℚ) (smp : Sampler) :
    stateWF cfg (img_step nets s a smp).1 = true := by
  obtain ⟨hgru, hprior, hpost, hsample⟩ := hn
  exact stateWF_mk cfg _ _ (hsample _ _) (hgru _ _ _)

/-- One action per batch element, each of the configured size. -/
theorem imagineActs_shapes (pol : PolicyNets)
    (hp : ∀ f smp, (pol.act f smp).1.length = pol.num_actions)
    (states : List LatentState) (smp : Sampler) :
    (imagineActs pol states smp).1.length = states.length
    ∧ ∀ a ∈ (imagineActs pol states smp).1, a.length = pol.num_actions := by
  constructor
  · rw [imagineActs, mapSampler_length, List.length_map]
  · intro a ha
    rcases mapSampler_mem _ _ _ a ha with ⟨f, smp2, _, haeq⟩
    rw [haeq]
    exact hp f smp2

/-- The stepped batch keeps its size and is well-formed. -/
theorem imagineNext_shapes (cfg : RSSMConfig) (nets : RSSMNets) (hn : netsWF cfg nets)
    (states : List LatentState) (acts : List (List ℚ)) (smp : Sampler)
    (hlen : acts.length = states.length) :
    (imagineNext nets states acts smp).1.length = states.length
    ∧ ∀ st ∈ (imagineNext nets states acts smp).1, stateWF cfg st = true := by
  constructor
  · rw [imagineNext, mapSampler_length, List.length_zip, hlen, Nat.min_self]
  · intro st hst
    rcases mapSampler_mem _ _ _ st hst with ⟨p, smp2, _, hsteq⟩
    rw [hsteq]
    exact img_step_wf cfg nets hn p.1 p.2 smp2

/-- Full shape statement for the imagination rollout, by induction on the
horizon. -/
theorem imagine_shapes_aux (cfg : RSSMConfig) (nets : RSSMNets) (pol : PolicyNets)
    (hn : netsWF cfg nets)
    (hp : ∀ f smp, (pol.act f smp).1.length = pol.num_actions) (N : ℕ) :
    ∀ (H : ℕ) (states : List LatentState) (smp : Sampler),
      states.length = N → (∀ st ∈ states, stateWF cfg st = true) →
      ((imagine cfg nets pol H states smp).1.1.length = H
       ∧ (imagine cfg nets pol H states smp).1.2.1.length = H
       ∧ (imagine cfg nets pol H states smp).1.2.2.length = H)
      ∧ (∀ fr ∈ (imagine cfg nets pol H states smp).1.1,
          fr.length = N ∧ ∀ fv ∈ fr, fv.length = featLen cfg)
      ∧ (∀ sr ∈ (imagine cfg nets pol H states smp).1.2.1,
          sr.length = N ∧ ∀ st ∈ sr, stateWF cfg st = true)
      ∧ (∀ ar ∈ (imagine cfg nets pol H states smp).1.2.2,
          ar.length = N ∧ ∀ av ∈ ar, av.length = pol.num_actions)
  | 0, states, smp, hlen, hwf => by simp [imagine]
  | Nat.succ h, states, smp, hlen, hwf => by
    have hacts := imagineActs_shapes pol hp states smp
    have hnext := imagineNext_shapes cfg nets hn states
      (imagineActs pol states smp).1 (imagineActs pol states smp).2 hacts.1
    have ih := imagine_shapes_aux cfg nets pol hn hp N h
      (imagineNext nets states (imagineActs pol states smp).1 (imagineActs pol states smp).2).1
      (imagineNext nets states (imagineActs pol states smp).1 (imagineActs pol states smp).2).2
      (hnext.1.trans hlen) hnext.2
    have hs1 : (imagine cfg nets pol (Nat.succ h) states smp).1.1
        = states.map get_feat
          :: (imagine cfg nets pol h
               (imagineNext nets states (imagineActs pol states smp).1
                  (imagineActs pol states smp).2).1
               (imagineNext nets states (imagineActs pol states smp).1
                  (imagineActs pol states smp).2).2).1.1 := rfl
    have hs2 : (imagine cfg nets pol (Nat.succ h) states smp).1.2.1
        = states
          :: (imagine cfg nets pol h
               (imagineNext nets states (imagineActs pol states smp).1
                  (imagineActs pol states smp).2).1
               (imagineNext nets states (imagineActs pol states smp).1
                  (imagineActs pol states smp).2).2).1.2.1 := rfl
    have hs3 : (imagine cfg nets pol (Nat.succ h) states smp).1.2.2
        = (imagineActs pol states smp).1
          :: (imagine cfg nets pol h
               (imagineNext nets states (imagineActs pol states smp).1
                  (imagineActs pol states smp).2).1
               (imagineNext nets states (imagineActs pol states smp).1
                  (imagineActs pol states smp).2).2).1.2.2 := rfl
    rw [hs1, hs2, hs3]
    refine ⟨⟨by simp [ih.1.1], by simp [ih.1.2.1], by simp [ih.1.2.2]⟩, ?_, ?_, ?_⟩
    · intro fr hfr
      rcases List.mem_cons.mp hfr with hh | hh
      · subst hh
        refine ⟨by simp [hlen], ?_⟩
        intro fv hfv
        rcases List.mem_map.mp hfv with ⟨st, hst, hfveq⟩
        subst hfveq
        exact get_feat_len cfg st (hwf st hst)
      · exact ih.2.1 fr hh
    · intro sr hsr
      rcases List.mem_cons.mp hsr with hh | hh
      · subst hh
        exact ⟨hlen, hwf⟩
      · exact ih.2.2.1 sr hh
    · intro ar har
      rcases List.mem_cons.mp har with hh | hh
      · subst hh
        exact ⟨hacts.1.trans hlen, hacts.2⟩
      · exact ih.2.2.2 ar hh

/-- C6: the imagination rollout returns features, states and actions whose
leading dimension is exactly `H`; each step's row matches the seed batch
size, with features of length `deter_size + num_groups * num_classes`,
well-formed latent states, and actions of size `num_actions`; resetting
the sampling apparatus restores the pristine sampler, so a second call on
identical seeds after the reset reproduces a pristine call's outputs
exactly. -/
theorem imagine_rollout_shapes (cfg : RSSMConfig) (nets : RSSMNets) (pol : PolicyNets)
    (hn : netsWF cfg nets)
    (hp : ∀ f smp, (pol.act f smp).1.length = pol.num_actions)
    (H N : ℕ) (seeds : List LatentState) (app : ImagApp)
    (hN : seeds.length = N) (hwf : ∀ st ∈ seeds, stateWF cfg st = true) :
    ((imagineCall cfg nets pol H seeds app).1.1.length = H
     ∧ (imagineCall cfg nets pol H seeds app).1.2.1.length = H
     ∧ (imagineCall cfg nets pol H seeds app).1.2.2.length = H)
    ∧ (∀ fr ∈ (imagineCall cfg nets pol H seeds app).1.1,
        fr.length = N ∧ ∀ fv ∈ fr, fv.length = featLen cfg)
    ∧ (∀ sr ∈ (imagineCall cfg nets pol H seeds app).1.2.1,
        sr.length = N ∧ ∀ st ∈ sr, stateWF cfg st = true)
    ∧ (∀ ar ∈ (imagineCall cfg nets pol H seeds app).1.2.2,
        ar.length = N ∧ ∀ av ∈ ar, av.length = pol.num_actions)
    ∧ imagineReset (imagineCall cfg nets pol H seeds app).2 = imagAppInit
    ∧ (imagineCall cfg nets pol H seeds
          (imagineReset (imagineCall cfg nets pol H seeds app).2)).1
        = (imagineCall cfg nets pol H seeds imagAppInit).1 := by
  have h := imagine_shapes_aux cfg nets pol hn hp N H seeds app.smp hN hwf
  exact ⟨h.1, h.2.1, h.2.2.1, h.2.2.2, rfl, rfl⟩

/-- Witness for C6 at a small configuration (2 groups, 2 classes,
deterministic size 3, 3 actions), horizon 2, seed batch 2. -/
theorem imagine_rollout_shapes_witness :
    (imagineCall ⟨2, 2, 3⟩ (trivNets ⟨2, 2, 3⟩) (trivPolicy 3) 2
        (initialBatch ⟨2, 2, 3⟩ 2) imagAppInit).1.1.length = 2
    ∧ (imagineCall ⟨2, 2, 3⟩ (trivNets ⟨2, 2, 3⟩) (trivPolicy 3) 2
          (initialBatch ⟨2, 2, 3⟩ 2)
          (imagineReset (imagineCall ⟨2, 2, 3⟩ (trivNets ⟨2, 2, 3⟩) (trivPolicy 3) 2
              (initialBatch ⟨2, 2, 3⟩ 2) imagAppInit).2)).1
        = (imagineCall ⟨2, 2, 3⟩ (trivNets ⟨2, 2, 3⟩) (trivPolicy 3) 2
            (initialBatch ⟨2, 2, 3⟩ 2) imagAppInit).1 := by
  have h := imagine_rollout_shapes ⟨2, 2, 3⟩ (trivNets ⟨2, 2, 3⟩) (trivPolicy 3)
    (trivNets_wf _) (fun f smp => by simp [trivPolicy]) 2 2
    (initialBatch ⟨2, 2, 3⟩ 2) imagAppInit (by simp [initialBatch])
    (fun st hst => by rw [List.eq_of_mem_replicate hst]; exact initialLatent_wf _)
  exact ⟨h.1.1, h.2.2.2.2.2⟩

end DreamerSpec
